import Mathlib

/-!
Shallow embedding of `plot_activity.py` (waffle-reviewer): the pipeline that
turns timestamped payment events into the dense 371-day daily series and the
month labels used for a GitHub-style activity heatmap.

Modelling conventions:
* A calendar date is an `Int`: the number of days since 1970-01-01 (which was
  a Thursday).  `weekday` follows Python's `datetime.weekday()` convention,
  Monday = 0 .. Sunday = 6 (so Saturday = 5, matching `saturday_id = 5`).
* A timestamp is an `Int`: seconds since the Unix epoch (UTC).
* A pandas `Series` indexed by dates is a `List (Int × ℚ)` of (date, value)
  pairs in index order; a series that may hold NaN (missing) values is a
  `List (Int × Option ℚ)` with `none` standing for NaN.
* Amounts are rationals `ℚ` (the embedding of the numeric prices).
-/

set_option autoImplicit false

/-- Weekday index of a date, Python `datetime.weekday()` convention:
Monday = 0, ..., Saturday = 5, Sunday = 6.  Day 0 (1970-01-01) is a
Thursday, index 3. -/
def weekday (d : Int) : Int := (d + 3) % 7

/-- Gregorian calendar: (year, month, day) of a date given as days since
1970-01-01 (Howard Hinnant's `civil_from_days` algorithm, exact for all
dates). -/
def civilOfDays (z : Int) : Int × Int × Int :=
  let z' := z + 719468
  let era := z'.fdiv 146097
  let doe := z' - era * 146097
  let yoe := (doe - doe / 1460 + doe / 36524 - doe / 146096) / 365
  let y := yoe + era * 400
  let doy := doe - (365 * yoe + yoe / 4 - yoe / 100)
  let mp := (5 * doy + 2) / 153
  let d := doy - (153 * mp + 2) / 5 + 1
  let m := mp + (if mp < 10 then 3 else -9)
  (if m ≤ 2 then y + 1 else y, m, d)

/-- Year component of a date. -/
def civilYear (z : Int) : Int := (civilOfDays z).1

/-- Month component (1..12) of a date. -/
def civilMonth (z : Int) : Int := (civilOfDays z).2.1

/-- Days since 1970-01-01 of a (year, month, day) triple (Howard Hinnant's
`days_from_civil` algorithm). -/
def daysFromCivil (y m d : Int) : Int :=
  let y' := if m ≤ 2 then y - 1 else y
  let era := y'.fdiv 400
  let yoe := y' - era * 400
  let mp := if 2 < m then m - 3 else m + 9
  let doy := (153 * mp + 2) / 5 + d - 1
  let doe := yoe * 365 + yoe / 4 - yoe / 100 + doy
  era * 146097 + doe - 719468

/-- English month abbreviation of a date, as produced by `strftime` with the
`%b` format in the C locale. -/
def monthAbbrev (z : Int) : String :=
  let m := civilMonth z
  if m = 1 then "Jan" else if m = 2 then "Feb" else if m = 3 then "Mar"
  else if m = 4 then "Apr" else if m = 5 then "May" else if m = 6 then "Jun"
  else if m = 7 then "Jul" else if m = 8 then "Aug" else if m = 9 then "Sep"
  else if m = 10 then "Oct" else if m = 11 then "Nov" else "Dec"

/-- The first Sunday on or after a date. -/
def sundayOnOrAfter (d : Int) : Int := d + (6 - weekday d)

/-- Second Sunday of March of a year (start day of US daylight saving time
under the post-2007 rule). -/
def secondSundayOfMarch (y : Int) : Int := sundayOnOrAfter (daysFromCivil y 3 1) + 7

/-- First Sunday of November of a year (end day of US daylight saving time
under the post-2007 rule). -/
def firstSundayOfNovember (y : Int) : Int := sundayOnOrAfter (daysFromCivil y 11 1)

/-- UTC offset, in seconds, of the US/Pacific timezone at a given UTC instant:
-7h (PDT) between 02:00 PST on the second Sunday of March (10:00 UTC) and
02:00 PDT on the first Sunday of November (09:00 UTC), -8h (PST) otherwise.
This embeds the `pytz.timezone('US/Pacific')` conversion used by
`get_daily_gain`; the rule is exact for instants from 2007 on, which covers
every instant appearing in this development. -/
def usPacificOffset (t : Int) : Int :=
  let y := civilYear (t.fdiv 86400)
  if secondSundayOfMarch y * 86400 + 36000 ≤ t ∧ t < firstSundayOfNovember y * 86400 + 32400
  then -25200 else -28800

/-- Local calendar day of a UTC instant under a timezone given as an
offset-seconds function: convert to local wall-clock time, then truncate to
the day.  This is the day bucket assigned by `pd.TimeGrouper('D')` after
`tz_convert` in `get_daily_gain` (lines 79-85). -/
def localDay (tz : Int → Int) (t : Int) : Int := (t + tz t).fdiv 86400

/-- Dates of the index of a series. -/
def datesOf (ts : List (Int × ℚ)) : List Int := ts.map Prod.fst

/-- Maximum of a list of dates (0 for the empty list; only ever used on
non-empty lists, where it embeds pandas `.index.max()`). -/
def maxD : List Int → Int
  | [] => 0
  | d :: ds => if ds = [] then d else max d (maxD ds)

/-- Minimum of a list of dates (0 for the empty list; only ever used on
non-empty lists, where it embeds pandas `.index.min()`). -/
def minD : List Int → Int
  | [] => 0
  | d :: ds => if ds = [] then d else min d (minD ds)

/-- Largest date of the index of a series: `timeseries.index.max()`. -/
def maxDate (ts : List (Int × ℚ)) : Int := maxD (datesOf ts)

/-- Smallest date of the index of a series: `timeseries.index.min()`. -/
def minDate (ts : List (Int × ℚ)) : Int := minD (datesOf ts)

/-- The list of consecutive dates from `s` to `e` inclusive (empty when
`e < s`): `pd.date_range(s, e)` with daily frequency. -/
def date_range (s e : Int) : List Int :=
  (List.range (e + 1 - s).toNat).map (fun (i : Nat) => s + (i : Int))

/-- Lines 89-106: a series with constant value `v` on every day from `s` to
`e` inclusive (`pd.Series(value, index=pd.date_range(start, end))`). -/
def create_timeseries (s e : Int) (v : ℚ) : List (Int × ℚ) :=
  (date_range s e).map (fun d => (d, v))

/-- Lines 128-130: number of days from `d` forward to the next Saturday
(`saturday_id = 5`); 0 when `d` is itself a Saturday. -/
def daysAhead (d : Int) : Int :=
  if 5 - weekday d < 0 then 5 - weekday d + 7 else 5 - weekday d

/-- Lines 109-141, `fill_week`: append value-`v` entries for the days after
the series' last date up to the next Saturday (no new entries when the last
date is already a Saturday). -/
def fill_week (ts : List (Int × ℚ)) (v : ℚ) : List (Int × ℚ) :=
  ts ++ create_timeseries (maxDate ts + 1) (maxDate ts + daysAhead (maxDate ts)) v

/-- Line 163: the date one year (365 days) before the series' last date. -/
def one_year_date (ts : List (Int × ℚ)) : Int := maxDate ts - 365

/-- Line 166: the `starting_date` of `fill_year` − the Sunday strictly before
`one_year_date`, obtained by stepping back `weekday + 1` days.  Line 168
asserts that this date is a Sunday. -/
def starting_date (ts : List (Int × ℚ)) : Int :=
  one_year_date ts - (weekday (one_year_date ts) + 1)

/-- Lines 143-179, `fill_year`: prepend value-`v` entries for every day from
`starting_date` up to the day before the series' first date. -/
def fill_year (ts : List (Int × ℚ)) (v : ℚ) : List (Int × ℚ) :=
  create_timeseries (starting_date ts) (minDate ts - 1) v ++ ts

/-- Line 187: the fixed grid capacity, 53 weeks of 7 days. -/
def number_of_days : Nat := 371

/-- Lines 187-194 of `plot_activity`: truncate the series to its last
`number_of_days` entries when longer, complete it backwards with `fill_year`
when shorter, and leave it unchanged at exactly `number_of_days`. -/
def fill_or_truncate (s : List (Int × ℚ)) : List (Int × ℚ) :=
  if number_of_days < s.length then s.drop (s.length - number_of_days)
  else if s.length < number_of_days then fill_year s 0
  else s

/-- Lines 185-194: the series transformation performed by `plot_activity`
before plotting − `fill_week` with zeros, then truncate or `fill_year`. -/
def plot_activity_series (series : List (Int × ℚ)) : List (Int × ℚ) :=
  fill_or_truncate (fill_week series 0)

/-- Events of a list that fall on local day `d` under timezone `tz` (an event
is a pair of a UTC timestamp in seconds and an amount). -/
def dayEvents (tz : Int → Int) (events : List (Int × ℚ)) (d : Int) : List (Int × ℚ) :=
  events.filter (fun e => localDay tz e.1 = d)

/-- Total amount of the events falling on local day `d`. -/
def daySum (tz : Int → Int) (events : List (Int × ℚ)) (d : Int) : ℚ :=
  ((dayEvents tz events d).map Prod.snd).sum

/-- Local day of each event of a list. -/
def eventDays (tz : Int → Int) (events : List (Int × ℚ)) : List Int :=
  events.map (fun e => localDay tz e.1)

/-- Earliest local day with an event. -/
def minEventDay (tz : Int → Int) (events : List (Int × ℚ)) : Int :=
  minD (eventDays tz events)

/-- Latest local day with an event. -/
def maxEventDay (tz : Int → Int) (events : List (Int × ℚ)) : Int :=
  maxD (eventDays tz events)

/-- Lines 53-87, `get_daily_gain` on a non-empty event list: convert each
UTC timestamp to the target timezone, truncate to the local calendar day and
sum the amounts of each day (`groupby(pd.TimeGrouper('D')).sum()`).  The
grouper produces one bin for every day between the first and the last local
event day; a day with no events yields an empty bin, whose sum is the missing
value NaN, embedded as `none`. -/
def get_daily_gain (tz : Int → Int) (events : List (Int × ℚ)) : List (Int × Option ℚ) :=
  (date_range (minEventDay tz events) (maxEventDay tz events)).map
    (fun d => (d, if dayEvents tz events d = [] then none else some (daySum tz events d)))

/-- Embedding of `get_daily_gain` as a fallible operation: on an empty event
list the numpy indexing of line 75 raises an uncaught exception (no usable
events), embedded as `none`. -/
def get_daily_gain? (tz : Int → Int) (events : List (Int × ℚ)) :
    Option (List (Int × Option ℚ)) :=
  if events.isEmpty then none else some (get_daily_gain tz events)

/-- Line 225: `daily_gain.fillna(0)` − replace every missing value by 0. -/
def fillna (ts : List (Int × Option ℚ)) : List (Int × ℚ) :=
  ts.map (fun p => (p.1, p.2.getD 0))

/-- The dense series handed to the heatmap for a non-empty event list:
bucketize, zero-fill the missing days, then apply the window filling of
`plot_activity`. -/
def pipelineSeries (tz : Int → Int) (events : List (Int × ℚ)) : List (Int × ℚ) :=
  plot_activity_series (fillna (get_daily_gain tz events))

/-- Lines 221-227, `main` up to the plotting call: the dense series handed to
the renderer, or `none` when bucketizing failed; the failure is propagated,
`main` installs no handler. -/
def main_series (tz : Int → Int) (events : List (Int × ℚ)) :
    Option (List (Int × ℚ)) :=
  (get_daily_gain? tz events).map (fun s => plot_activity_series (fillna s))

/-- Per-day month labels of a series: line 197,
`series.index.map(lambda x: x.strftime('%b'))`. -/
def month_labels (ts : List (Int × ℚ)) : List String :=
  ts.map (fun p => monthAbbrev p.1)

/-- Line 200, `months[::7]`: every 7th element of a list, starting with the
first. -/
def stride7 : List String → List String
  | [] => []
  | x :: xs => x :: stride7 (xs.drop 6)
termination_by l => l.length
decreasing_by simp [List.length_drop]; omega

/-- Lines 202-207: the label-collapsing loop, carrying `current_month`. -/
def collapseLoop (current : String) : List String → List String
  | [] => []
  | m :: ms => if m = current then "" :: collapseLoop current ms
               else m :: collapseLoop m ms

/-- Lines 202-207 with the initial `current_month = ''`: blank every label
equal to the tracked current month. -/
def collapseMonths (ms : List String) : List String := collapseLoop "" ms

/-- Blank every element equal to the immediately preceding original element
(helper for the run-collapsing description). -/
def collapseAfter (prev : String) : List String → List String
  | [] => []
  | m :: ms => (if m = prev then "" else m) :: collapseAfter m ms

/-- Modelled from the spec's description of label collapsing: keep the first
label of each run of equal consecutive labels and blank the others. -/
def collapseRuns : List String → List String
  | [] => []
  | m :: ms => m :: collapseAfter m ms

/-- Month labels of the heatmap columns as computed in lines 196-207: the
per-day labels, strided to one per week, with repeats collapsed. -/
def plot_months (ts : List (Int × ℚ)) : List String :=
  collapseMonths (stride7 (month_labels ts))

/-- A dense series: consecutive dates starting at `s`, carrying the listed
values.  Every series reaching `plot_activity` in this program has this
shape. -/
def denseFrom (s : Int) : List ℚ → List (Int × ℚ)
  | [] => []
  | v :: vs => (s, v) :: denseFrom (s + 1) vs

/-! Basic lemmas about weekdays and dense series. -/

theorem weekday_nonneg (d : Int) : 0 ≤ weekday d := by unfold weekday; omega

theorem weekday_lt_seven (d : Int) : weekday d < 7 := by unfold weekday; omega

theorem daysAhead_nonneg (d : Int) : 0 ≤ daysAhead d := by
  unfold daysAhead weekday; split <;> omega

theorem daysAhead_lt_seven (d : Int) : daysAhead d < 7 := by
  unfold daysAhead weekday; split <;> omega

theorem weekday_add_daysAhead (d : Int) : weekday (d + daysAhead d) = 5 := by
  unfold daysAhead weekday; split <;> omega

theorem daysAhead_of_saturday {d : Int} (h : weekday d = 5) : daysAhead d = 0 := by
  unfold weekday at h; unfold daysAhead weekday; split <;> omega

theorem denseFrom_length (s : Int) (vs : List ℚ) :
    (denseFrom s vs).length = vs.length := by
  induction vs generalizing s with
  | nil => rfl
  | cons v vs ih => simp [denseFrom, ih]

theorem denseFrom_ne_nil (s : Int) {vs : List ℚ} (h : vs ≠ []) :
    denseFrom s vs ≠ [] := by
  cases vs with
  | nil => exact absurd rfl h
  | cons v vs => simp [denseFrom]

theorem denseFrom_append (s : Int) (a b : List ℚ) :
    denseFrom s (a ++ b) = denseFrom s a ++ denseFrom (s + a.length) b := by
  induction a generalizing s with
  | nil => simp [denseFrom]
  | cons v a ih =>
    have hcast : s + ((a.length + 1 : Nat) : Int) = s + 1 + (a.length : Int) := by
      push_cast; ring
    simp only [List.cons_append, denseFrom, List.append_eq, ih (s + 1),
      List.length_cons, hcast]

theorem denseFrom_drop (s : Int) (vs : List ℚ) (k : Nat) :
    (denseFrom s vs).drop k = denseFrom (s + k) (vs.drop k) := by
  induction vs generalizing s k with
  | nil => simp [denseFrom]
  | cons v vs ih =>
    cases k with
    | zero => simp [denseFrom]
    | succ k =>
      have hcast : s + ((k + 1 : Nat) : Int) = s + 1 + (k : Int) := by
        push_cast; ring
      simp only [denseFrom, List.drop_succ_cons, ih (s + 1) k, hcast]

theorem rangeMap_denseFrom (g : Int → ℚ) (n : Nat) (s : Int) :
    (List.range n).map (fun (i : Nat) => (s + (i : Int), g (s + (i : Int)))) =
      denseFrom s ((List.range n).map (fun (i : Nat) => g (s + (i : Int)))) := by
  induction n with
  | zero => rfl
  | succ n ih =>
    rw [List.range_succ]
    simp only [List.map_append, List.map_singleton]
    rw [ih, denseFrom_append]
    simp [denseFrom]

theorem map_date_range_pair (g : Int → ℚ) (a b : Int) :
    (date_range a b).map (fun d => (d, g d)) =
      denseFrom a ((date_range a b).map g) := by
  unfold date_range
  rw [List.map_map, List.map_map]
  exact rangeMap_denseFrom g _ a

theorem date_range_length (a b : Int) :
    (date_range a b).length = (b + 1 - a).toNat := by
  unfold date_range
  rw [List.length_map, List.length_range]

theorem create_timeseries_eq (s e : Int) (v : ℚ) :
    create_timeseries s e v = denseFrom s (List.replicate (e + 1 - s).toNat v) := by
  unfold create_timeseries
  rw [map_date_range_pair (fun _ => v)]
  congr 1
  rw [List.map_const', date_range_length]

theorem mem_date_range {a b d : Int} : d ∈ date_range a b ↔ a ≤ d ∧ d ≤ b := by
  unfold date_range
  simp only [List.mem_map, List.mem_range]
  constructor
  · rintro ⟨i, hi, rfl⟩; omega
  · rintro ⟨h1, h2⟩; exact ⟨(d - a).toNat, by omega, by omega⟩

theorem mem_create_timeseries {s e : Int} {v : ℚ} {p : Int × ℚ}
    (h : p ∈ create_timeseries s e v) : p.2 = v ∧ s ≤ p.1 ∧ p.1 ≤ e := by
  unfold create_timeseries at h
  rcases List.mem_map.1 h with ⟨d, hd, rfl⟩
  rcases mem_date_range.1 hd with ⟨h1, h2⟩
  exact ⟨rfl, h1, h2⟩

/-! Lemmas about minima and maxima of date lists. -/

theorem maxD_cons {d : Int} {ds : List Int} (h : ds ≠ []) :
    maxD (d :: ds) = max d (maxD ds) := by simp [maxD, h]

theorem minD_cons {d : Int} {ds : List Int} (h : ds ≠ []) :
    minD (d :: ds) = min d (minD ds) := by simp [minD, h]

theorem le_maxD {x : Int} {l : List Int} (h : x ∈ l) : x ≤ maxD l := by
  induction l with
  | nil => cases h
  | cons d ds ih =>
    cases ds with
    | nil => simp only [List.mem_singleton] at h; simp [maxD, h]
    | cons e es =>
      rw [maxD_cons (by simp)]
      rcases List.mem_cons.1 h with rfl | h'
      · exact le_max_left _ _
      · exact le_trans (ih h') (le_max_right _ _)

theorem minD_le {x : Int} {l : List Int} (h : x ∈ l) : minD l ≤ x := by
  induction l with
  | nil => cases h
  | cons d ds ih =>
    cases ds with
    | nil => simp only [List.mem_singleton] at h; simp [minD, h]
    | cons e es =>
      rw [minD_cons (by simp)]
      rcases List.mem_cons.1 h with rfl | h'
      · exact min_le_left _ _
      · exact le_trans (min_le_right _ _) (ih h')

theorem minD_le_maxD {l : List Int} (h : l ≠ []) : minD l ≤ maxD l := by
  obtain ⟨x, hx⟩ := List.exists_mem_of_ne_nil l h
  exact le_trans (minD_le hx) (le_maxD hx)

theorem maxD_append {a b : List Int} (ha : a ≠ []) (hb : b ≠ []) :
    maxD (a ++ b) = max (maxD a) (maxD b) := by
  induction a with
  | nil => exact absurd rfl ha
  | cons x xs ih =>
    cases xs with
    | nil =>
      rw [List.singleton_append, maxD_cons hb]
      simp [maxD]
    | cons y ys =>
      have h1 : maxD (x :: (y :: ys ++ b)) = max x (maxD (y :: ys ++ b)) :=
        maxD_cons (by simp)
      have h2 : maxD (x :: y :: ys) = max x (maxD (y :: ys)) := maxD_cons (by simp)
      rw [List.cons_append, h1, ih (by simp), h2, max_assoc]

theorem minD_append {a b : List Int} (ha : a ≠ []) (hb : b ≠ []) :
    minD (a ++ b) = min (minD a) (minD b) := by
  induction a with
  | nil => exact absurd rfl ha
  | cons x xs ih =>
    cases xs with
    | nil =>
      rw [List.singleton_append, minD_cons hb]
      simp [minD]
    | cons y ys =>
      have h1 : minD (x :: (y :: ys ++ b)) = min x (minD (y :: ys ++ b)) :=
        minD_cons (by simp)
      have h2 : minD (x :: y :: ys) = min x (minD (y :: ys)) := minD_cons (by simp)
      rw [List.cons_append, h1, ih (by simp), h2, min_assoc]

theorem datesOf_denseFrom_cons (s : Int) (v : ℚ) (vs : List ℚ) :
    datesOf (denseFrom s (v :: vs)) = s :: datesOf (denseFrom (s + 1) vs) := by
  simp [denseFrom, datesOf]

theorem datesOf_ne_nil {ts : List (Int × ℚ)} (h : ts ≠ []) : datesOf ts ≠ [] := by
  cases ts with
  | nil => exact absurd rfl h
  | cons p ps => simp [datesOf]

theorem maxDate_denseFrom (s : Int) (v : ℚ) (vs : List ℚ) :
    maxDate (denseFrom s (v :: vs)) = s + vs.length := by
  induction vs generalizing s v with
  | nil => simp [maxDate, denseFrom, datesOf, maxD]
  | cons w ws ih =>
    unfold maxDate
    rw [datesOf_denseFrom_cons,
      maxD_cons (datesOf_ne_nil (denseFrom_ne_nil _ (by simp)))]
    have h1 : maxD (datesOf (denseFrom (s + 1) (w :: ws))) = s + 1 + ws.length := ih (s + 1) w
    rw [h1, max_eq_right (show s ≤ s + 1 + (ws.length : Int) by omega)]
    simp only [List.length_cons]
    push_cast
    ring

theorem minDate_denseFrom (s : Int) (v : ℚ) (vs : List ℚ) :
    minDate (denseFrom s (v :: vs)) = s := by
  induction vs generalizing s v with
  | nil => simp [minDate, denseFrom, datesOf, minD]
  | cons w ws ih =>
    unfold minDate
    rw [datesOf_denseFrom_cons,
      minD_cons (datesOf_ne_nil (denseFrom_ne_nil _ (by simp)))]
    have h1 : minD (datesOf (denseFrom (s + 1) (w :: ws))) = s + 1 := ih (s + 1) w
    rw [h1, min_eq_left (show s ≤ s + 1 by omega)]

/-! Windows of the filling step on dense series. -/

theorem datesOf_create_timeseries (s e : Int) (v : ℚ) :
    datesOf (create_timeseries s e v) = date_range s e := by
  unfold datesOf create_timeseries
  have hcomp : (Prod.fst ∘ fun d : Int => (d, v)) = id := rfl
  rw [List.map_map, hcomp, List.map_id]

theorem maxD_date_range {a b : Int} (h : a ≤ b) : maxD (date_range a b) = b := by
  have hn : (b + 1 - a).toNat = (b - a).toNat + 1 := by omega
  have h1 : maxD (date_range a b) = maxDate (create_timeseries a b 0) := by
    unfold maxDate
    rw [datesOf_create_timeseries]
  rw [h1, create_timeseries_eq, hn, List.replicate_succ, maxDate_denseFrom,
    List.length_replicate]
  omega

theorem minD_date_range {a b : Int} (h : a ≤ b) : minD (date_range a b) = a := by
  have hn : (b + 1 - a).toNat = (b - a).toNat + 1 := by omega
  have h1 : minD (date_range a b) = minDate (create_timeseries a b 0) := by
    unfold minDate
    rw [datesOf_create_timeseries]
  rw [h1, create_timeseries_eq, hn, List.replicate_succ, minDate_denseFrom]

theorem fill_week_denseFrom (s : Int) (v0 v : ℚ) (vs : List ℚ) :
    fill_week (denseFrom s (v0 :: vs)) v =
      denseFrom s ((v0 :: vs) ++
        List.replicate (daysAhead (s + vs.length)).toNat v) := by
  unfold fill_week
  rw [maxDate_denseFrom, create_timeseries_eq, denseFrom_append]
  congr 1
  · congr 1
    · simp only [List.length_cons]
      push_cast
      ring
    · congr 1
      omega

theorem fill_or_truncate_denseFrom (s : Int) (v0 : ℚ) (vs : List ℚ)
    (hsat : weekday (s + vs.length) = 5) :
    ∃ ws : List ℚ, ws.length = number_of_days ∧
      fill_or_truncate (denseFrom s (v0 :: vs)) =
        denseFrom (s + (v0 :: vs).length - number_of_days) ws := by
  unfold fill_or_truncate
  rw [denseFrom_length]
  by_cases h1 : number_of_days < (v0 :: vs).length
  · rw [if_pos h1, denseFrom_drop]
    refine ⟨(v0 :: vs).drop ((v0 :: vs).length - number_of_days), ?_, ?_⟩
    · rw [List.length_drop]
      simp only [number_of_days, List.length_cons] at h1 ⊢
      omega
    · congr 1
      simp only [number_of_days, List.length_cons] at h1 ⊢
      omega
  · rw [if_neg h1]
    by_cases h2 : (v0 :: vs).length < number_of_days
    · rw [if_pos h2]
      unfold fill_year starting_date one_year_date
      rw [maxDate_denseFrom, minDate_denseFrom, create_timeseries_eq]
      have hsd : s + (vs.length : Int) - 365 -
          (weekday (s + (vs.length : Int) - 365) + 1) = s + vs.length - 370 := by
        unfold weekday at hsat ⊢
        omega
      rw [hsd]
      simp only [List.length_cons] at h2
      refine ⟨List.replicate (s - 1 + 1 - (s + vs.length - 370)).toNat 0 ++
        (v0 :: vs), ?_, ?_⟩
      · rw [List.length_append, List.length_replicate, List.length_cons]
        simp only [number_of_days] at h2 ⊢
        omega
      · rw [denseFrom_append, List.length_replicate]
        congr 2
        · simp only [List.length_cons, number_of_days] at h2 ⊢
          push_cast
          omega
        · simp only [List.length_cons, number_of_days] at h2 ⊢
          omega
    · rw [if_neg h2]
      have hlen : (v0 :: vs).length = number_of_days := by omega
      refine ⟨v0 :: vs, hlen, ?_⟩
      rw [hlen]
      congr 1
      omega

/-! Representation of the bucketized, zero-filled series. -/

theorem fillna_get_daily_gain (tz : Int → Int) (events : List (Int × ℚ)) :
    fillna (get_daily_gain tz events) =
      (date_range (minEventDay tz events) (maxEventDay tz events)).map
        (fun d => (d, daySum tz events d)) := by
  unfold fillna get_daily_gain
  rw [List.map_map]
  refine List.map_congr_left ?_
  intro d hd
  by_cases h : dayEvents tz events d = []
  · simp [Function.comp, h, daySum]
  · simp [Function.comp, h]

theorem fillna_gdg_denseFrom (tz : Int → Int) (events : List (Int × ℚ)) :
    fillna (get_daily_gain tz events) =
      denseFrom (minEventDay tz events)
        ((date_range (minEventDay tz events) (maxEventDay tz events)).map
          (daySum tz events)) := by
  rw [fillna_get_daily_gain, map_date_range_pair]

theorem eventDays_ne_nil {tz : Int → Int} {events : List (Int × ℚ)}
    (h : events ≠ []) : eventDays tz events ≠ [] := by
  cases events with
  | nil => exact absurd rfl h
  | cons e es => simp [eventDays]

theorem minEventDay_le_maxEventDay {tz : Int → Int} {events : List (Int × ℚ)}
    (h : events ≠ []) : minEventDay tz events ≤ maxEventDay tz events :=
  minD_le_maxD (eventDays_ne_nil h)

theorem localDay_mem_bounds {tz : Int → Int} {events : List (Int × ℚ)}
    {e : Int × ℚ} (he : e ∈ events) :
    minEventDay tz events ≤ localDay tz e.1 ∧
      localDay tz e.1 ≤ maxEventDay tz events := by
  have hmem : localDay tz e.1 ∈ eventDays tz events := List.mem_map.2 ⟨e, he, rfl⟩
  exact ⟨minD_le hmem, le_maxD hmem⟩

theorem dayEvents_eq_nil_outside {tz : Int → Int} {events : List (Int × ℚ)}
    {d : Int} (h : d < minEventDay tz events ∨ maxEventDay tz events < d) :
    dayEvents tz events d = [] := by
  unfold dayEvents
  rw [List.filter_eq_nil_iff]
  intro e he
  have hb := @localDay_mem_bounds tz events e he
  simp only [decide_eq_true_eq]
  omega

theorem daySum_eq_zero_outside {tz : Int → Int} {events : List (Int × ℚ)}
    {d : Int} (h : d < minEventDay tz events ∨ maxEventDay tz events < d) :
    daySum tz events d = 0 := by
  unfold daySum
  rw [dayEvents_eq_nil_outside h]
  simp

theorem pipelineSeries_denseFrom (tz : Int → Int) (events : List (Int × ℚ))
    (h : events ≠ []) :
    ∃ (a : Int) (ws : List ℚ), ws.length = number_of_days ∧
      weekday (a + 370) = 5 ∧ pipelineSeries tz events = denseFrom a ws := by
  have hle : minEventDay tz events ≤ maxEventDay tz events :=
    minEventDay_le_maxEventDay h
  have hrange : (date_range (minEventDay tz events) (maxEventDay tz events)).map
      (daySum tz events) ≠ [] := by
    intro hnil
    have hlen := congrArg List.length hnil
    rw [List.length_map, date_range_length] at hlen
    simp only [List.length_nil] at hlen
    omega
  obtain ⟨v0, vals, hvals⟩ := List.exists_cons_of_ne_nil hrange
  unfold pipelineSeries plot_activity_series
  rw [fillna_gdg_denseFrom, hvals, fill_week_denseFrom, List.cons_append]
  have hsat : weekday (minEventDay tz events +
      ((vals ++ List.replicate
        (daysAhead (minEventDay tz events + vals.length)).toNat 0).length : Int)) = 5 := by
    have hda := daysAhead_nonneg (minEventDay tz events + vals.length)
    have harg : minEventDay tz events +
        ((vals ++ List.replicate
          (daysAhead (minEventDay tz events + vals.length)).toNat 0).length : Int) =
        (minEventDay tz events + vals.length) +
          daysAhead (minEventDay tz events + vals.length) := by
      rw [List.length_append, List.length_replicate]
      push_cast
      omega
    rw [harg]
    exact weekday_add_daysAhead _
  obtain ⟨ws, hw1, hw2⟩ := fill_or_truncate_denseFrom (minEventDay tz events) v0
    (vals ++ List.replicate (daysAhead (minEventDay tz events + vals.length)).toNat 0)
    hsat
  refine ⟨minEventDay tz events +
    ((v0 :: (vals ++ List.replicate
      (daysAhead (minEventDay tz events + vals.length)).toNat 0)).length : Int) -
      number_of_days, ws, hw1, ?_, hw2⟩
  have hda := daysAhead_nonneg (minEventDay tz events + vals.length)
  have harg2 : minEventDay tz events +
      ((v0 :: (vals ++ List.replicate
        (daysAhead (minEventDay tz events + vals.length)).toNat 0)).length : Int) -
        number_of_days + 370 =
      (minEventDay tz events + vals.length) +
        daysAhead (minEventDay tz events + vals.length) := by
    rw [List.length_cons, List.length_append, List.length_replicate]
    simp only [number_of_days]
    push_cast
    omega
  rw [harg2]
  exact weekday_add_daysAhead _

/-! Membership and bounds lemmas used for the zero-fill property. -/

theorem datesOf_map_pair (l : List Int) (g : Int → ℚ) :
    datesOf (l.map (fun d => (d, g d))) = l := by
  unfold datesOf
  have hcomp : (Prod.fst ∘ fun d : Int => (d, g d)) = id := rfl
  rw [List.map_map, hcomp, List.map_id]

theorem dg_ne_nil (tz : Int → Int) (events : List (Int × ℚ)) (h : events ≠ []) :
    fillna (get_daily_gain tz events) ≠ [] := by
  rw [fillna_get_daily_gain]
  intro hnil
  have hlen := congrArg List.length hnil
  rw [List.length_map, date_range_length] at hlen
  simp only [List.length_nil] at hlen
  have hle : minEventDay tz events ≤ maxEventDay tz events :=
    minEventDay_le_maxEventDay h
  omega

theorem minDate_dg (tz : Int → Int) (events : List (Int × ℚ)) (h : events ≠ []) :
    minDate (fillna (get_daily_gain tz events)) = minEventDay tz events := by
  rw [fillna_get_daily_gain]
  unfold minDate
  rw [datesOf_map_pair, minD_date_range (minEventDay_le_maxEventDay h)]

theorem maxDate_dg (tz : Int → Int) (events : List (Int × ℚ)) (h : events ≠ []) :
    maxDate (fillna (get_daily_gain tz events)) = maxEventDay tz events := by
  rw [fillna_get_daily_gain]
  unfold maxDate
  rw [datesOf_map_pair, maxD_date_range (minEventDay_le_maxEventDay h)]

theorem mem_fill_week {ts : List (Int × ℚ)} {v : ℚ} {p : Int × ℚ}
    (h : p ∈ fill_week ts v) : p ∈ ts ∨ (p.2 = v ∧ maxDate ts < p.1) := by
  unfold fill_week at h
  rcases List.mem_append.1 h with h' | h'
  · exact Or.inl h'
  · obtain ⟨h1, h2, h3⟩ := mem_create_timeseries h'
    exact Or.inr ⟨h1, by omega⟩

theorem mem_fill_year {ts : List (Int × ℚ)} {v : ℚ} {p : Int × ℚ}
    (h : p ∈ fill_year ts v) : p ∈ ts ∨ (p.2 = v ∧ p.1 < minDate ts) := by
  unfold fill_year at h
  rcases List.mem_append.1 h with h' | h'
  · obtain ⟨h1, h2, h3⟩ := mem_create_timeseries h'
    exact Or.inr ⟨h1, by omega⟩
  · exact Or.inl h'

theorem mem_fill_or_truncate {ts : List (Int × ℚ)} {p : Int × ℚ}
    (h : p ∈ fill_or_truncate ts) : p ∈ ts ∨ (p.2 = 0 ∧ p.1 < minDate ts) := by
  unfold fill_or_truncate at h
  split at h
  · exact Or.inl (List.drop_subset _ _ h)
  · split at h
    · exact mem_fill_year h
    · exact Or.inl h

theorem minDate_fill_week {ts : List (Int × ℚ)} (h : ts ≠ []) (v : ℚ) :
    minDate (fill_week ts v) = minDate ts := by
  unfold fill_week
  by_cases hda : daysAhead (maxDate ts) = 0
  · have hcr : create_timeseries (maxDate ts + 1)
        (maxDate ts + daysAhead (maxDate ts)) v = [] := by
      rw [create_timeseries_eq]
      have hz : (maxDate ts + daysAhead (maxDate ts) + 1 -
          (maxDate ts + 1)).toNat = 0 := by omega
      rw [hz]
      rfl
    rw [hcr, List.append_nil]
  · have hda' : 0 < daysAhead (maxDate ts) :=
      lt_of_le_of_ne (daysAhead_nonneg _) (Ne.symm hda)
    have hcr : create_timeseries (maxDate ts + 1)
        (maxDate ts + daysAhead (maxDate ts)) v ≠ [] := by
      apply List.ne_nil_of_length_pos
      unfold create_timeseries
      rw [List.length_map, date_range_length]
      omega
    unfold minDate
    unfold datesOf
    rw [List.map_append]
    have hts : List.map Prod.fst ts ≠ [] := by
      cases ts with
      | nil => exact absurd rfl h
      | cons x xs => simp
    have hcr' : List.map Prod.fst (create_timeseries (maxDate ts + 1)
        (maxDate ts + daysAhead (maxDate ts)) v) ≠ [] := by
      cases hc : create_timeseries (maxDate ts + 1)
          (maxDate ts + daysAhead (maxDate ts)) v with
      | nil => exact absurd hc hcr
      | cons x xs => simp
    rw [minD_append hts hcr']
    have hdc : List.map Prod.fst (create_timeseries (maxDate ts + 1)
        (maxDate ts + daysAhead (maxDate ts)) v) =
        date_range (maxDate ts + 1) (maxDate ts + daysAhead (maxDate ts)) :=
      datesOf_create_timeseries _ _ _
    rw [hdc, minD_date_range (show maxDate ts + 1 ≤
      maxDate ts + daysAhead (maxDate ts) by omega)]
    have hminmax : minD (List.map Prod.fst ts) ≤ maxD (List.map Prod.fst ts) :=
      minD_le_maxD hts
    exact min_eq_left (by unfold maxDate datesOf at *; omega)

theorem pipeline_value (tz : Int → Int) (events : List (Int × ℚ))
    (h : events ≠ []) {p : Int × ℚ} (hp : p ∈ pipelineSeries tz events) :
    p.2 = daySum tz events p.1 := by
  unfold pipelineSeries plot_activity_series at hp
  rcases mem_fill_or_truncate hp with hp1 | ⟨hz, hlt⟩
  · rcases mem_fill_week hp1 with hp2 | ⟨hz, hgt⟩
    · rw [fillna_get_daily_gain] at hp2
      rcases List.mem_map.1 hp2 with ⟨d, hd, rfl⟩
      rfl
    · rw [maxDate_dg tz events h] at hgt
      rw [hz, daySum_eq_zero_outside (Or.inr hgt)]
  · rw [minDate_fill_week (dg_ne_nil tz events h) 0, minDate_dg tz events h] at hlt
    rw [hz, daySum_eq_zero_outside (Or.inl hlt)]

/-! Lemmas about the month-label computation. -/

theorem collapseLoop_eq_after (ms : List String) :
    ∀ c, collapseLoop c ms = collapseAfter c ms := by
  induction ms with
  | nil => intro c; rfl
  | cons m ms ih =>
    intro c
    by_cases h : m = c
    · subst h
      simp only [collapseLoop, collapseAfter, if_pos rfl]
      exact congrArg _ (ih m)
    · simp only [collapseLoop, collapseAfter, if_neg h]
      exact congrArg _ (ih m)

theorem collapseMonths_eq_runs {ms : List String} (h : ms.head? ≠ some "") :
    collapseMonths ms = collapseRuns ms := by
  cases ms with
  | nil => rfl
  | cons m ms =>
    have hm : ¬(m = "") := by
      intro he
      exact h (by rw [he]; rfl)
    unfold collapseMonths collapseRuns
    simp only [collapseLoop, if_neg hm]
    exact congrArg _ (collapseLoop_eq_after ms m)

theorem stride7_getElem (l : List String) (k : Nat) :
    (stride7 l)[k]? = l[7 * k]? := by
  induction k generalizing l with
  | zero =>
    cases l with
    | nil => simp [stride7]
    | cons x xs => simp [stride7]
  | succ k ih =>
    cases l with
    | nil => simp [stride7]
    | cons x xs =>
      rw [stride7]
      have h1 : (x :: stride7 (xs.drop 6))[k + 1]? = (stride7 (xs.drop 6))[k]? :=
        List.getElem?_cons_succ
      rw [h1, ih (xs.drop 6), List.getElem?_drop]
      have h2 : 7 * (k + 1) = (6 + 7 * k) + 1 := by ring
      rw [h2, List.getElem?_cons_succ]

theorem maxDate_append {a b : List (Int × ℚ)} (ha : a ≠ []) (hb : b ≠ []) :
    maxDate (a ++ b) = max (maxDate a) (maxDate b) := by
  unfold maxDate datesOf
  rw [List.map_append]
  apply maxD_append
  · cases a with
    | nil => exact absurd rfl ha
    | cons x xs => simp
  · cases b with
    | nil => exact absurd rfl hb
    | cons x xs => simp

theorem maxDate_create_timeseries {a b : Int} (hab : a ≤ b) (v : ℚ) :
    maxDate (create_timeseries a b v) = b := by
  unfold maxDate
  rw [datesOf_create_timeseries, maxD_date_range hab]

theorem maxDate_fill_week {ts : List (Int × ℚ)} (h : ts ≠ []) (v : ℚ) :
    maxDate (fill_week ts v) = maxDate ts + daysAhead (maxDate ts) := by
  unfold fill_week
  by_cases hda : daysAhead (maxDate ts) = 0
  · have hcr : create_timeseries (maxDate ts + 1)
        (maxDate ts + daysAhead (maxDate ts)) v = [] := by
      rw [create_timeseries_eq]
      have hz : (maxDate ts + daysAhead (maxDate ts) + 1 -
          (maxDate ts + 1)).toNat = 0 := by omega
      rw [hz]
      rfl
    rw [hcr, List.append_nil, hda, add_zero]
  · have hda' : 0 < daysAhead (maxDate ts) :=
      lt_of_le_of_ne (daysAhead_nonneg _) (Ne.symm hda)
    have hcr : create_timeseries (maxDate ts + 1)
        (maxDate ts + daysAhead (maxDate ts)) v ≠ [] := by
      apply List.ne_nil_of_length_pos
      unfold create_timeseries
      rw [List.length_map, date_range_length]
      omega
    rw [maxDate_append h hcr,
      maxDate_create_timeseries (show maxDate ts + 1 ≤
        maxDate ts + daysAhead (maxDate ts) by omega) v]
    exact max_eq_right (by omega)

/-! Claim theorems. -/

/-- C3: for every non-empty daily series, `fill_week` extends the series
exactly to the nearest Saturday on or after its maximum date: the new last
date is a Saturday, is at least the old last date, and is the least such
Saturday; when the old last date is already a Saturday it is unchanged, and
when it is a Wednesday (weekday index 2) the new last date is 3 days later. -/
theorem c3_end_anchor (ts : List (Int × ℚ)) (v : ℚ) (h : ts ≠ []) :
    weekday (maxDate (fill_week ts v)) = 5 ∧
    maxDate ts ≤ maxDate (fill_week ts v) ∧
    (∀ d : Int, weekday d = 5 → maxDate ts ≤ d → maxDate (fill_week ts v) ≤ d) ∧
    (weekday (maxDate ts) = 5 → maxDate (fill_week ts v) = maxDate ts) ∧
    (weekday (maxDate ts) = 2 → maxDate (fill_week ts v) = maxDate ts + 3) := by
  rw [maxDate_fill_week h v]
  refine ⟨weekday_add_daysAhead _, ?_, ?_, ?_, ?_⟩
  · have := daysAhead_nonneg (maxDate ts)
    omega
  · intro d h5 hle
    unfold weekday at h5
    unfold daysAhead weekday
    split <;> omega
  · intro h5
    rw [daysAhead_of_saturday h5, add_zero]
  · intro h2
    have h3 : daysAhead (maxDate ts) = 3 := by
      unfold weekday at h2
      unfold daysAhead weekday
      split <;> omega
    omega

/-- C3 witness: a singleton series whose only date is a Wednesday
(1969-12-31, day -1, weekday index 2). -/
theorem c3_end_anchor_witness :
    (([((-1 : Int), (4:ℚ))] : List (Int × ℚ)) ≠ []) ∧
    (weekday (maxDate (fill_week [((-1 : Int), (4:ℚ))] 0)) = 5 ∧
     maxDate [((-1 : Int), (4:ℚ))] ≤ maxDate (fill_week [((-1 : Int), (4:ℚ))] 0) ∧
     (∀ d : Int, weekday d = 5 → maxDate [((-1 : Int), (4:ℚ))] ≤ d →
       maxDate (fill_week [((-1 : Int), (4:ℚ))] 0) ≤ d) ∧
     (weekday (maxDate [((-1 : Int), (4:ℚ))]) = 5 →
       maxDate (fill_week [((-1 : Int), (4:ℚ))] 0) = maxDate [((-1 : Int), (4:ℚ))]) ∧
     (weekday (maxDate [((-1 : Int), (4:ℚ))]) = 2 →
       maxDate (fill_week [((-1 : Int), (4:ℚ))] 0) = maxDate [((-1 : Int), (4:ℚ))] + 3)) :=
  ⟨by simp, c3_end_anchor [((-1 : Int), (4:ℚ))] 0 (by simp)⟩

/-- C6: an empty event sequence makes the bucketizing step fail (no usable
events), and `main` propagates the failure without recovering: the series it
would hand to the renderer is `none`. -/
theorem c6_no_data (tz : Int → Int) :
    get_daily_gain? tz [] = none ∧ main_series tz [] = none := ⟨rfl, rfl⟩

/-- C9: the filling step of `plot_activity` is the identity on a series that
is already dense and aligned: gap-free, of length exactly 371 and ending on a
Saturday. -/
theorem c9_idempotence (s : Int) (vs : List ℚ) (hlen : vs.length = number_of_days)
    (hsat : weekday (s + 370) = 5) :
    plot_activity_series (denseFrom s vs) = denseFrom s vs := by
  obtain ⟨v0, vs', rfl⟩ := List.exists_cons_of_ne_nil
    (show vs ≠ [] by intro hnil; rw [hnil] at hlen; simp [number_of_days] at hlen)
  have h370 : vs'.length = 370 := by
    simp only [List.length_cons, number_of_days] at hlen
    omega
  unfold plot_activity_series
  rw [fill_week_denseFrom]
  have hda : daysAhead (s + vs'.length) = 0 := by
    apply daysAhead_of_saturday
    rw [h370]
    exact_mod_cast hsat
  rw [hda]
  simp only [Int.toNat_zero, List.replicate_zero, List.append_nil]
  unfold fill_or_truncate
  rw [denseFrom_length]
  rw [if_neg (by omega), if_neg (by omega)]

/-- C9 witness: the constant series of 371 zeros starting on 1970-01-04, a
Sunday, hence ending on a Saturday. -/
theorem c9_idempotence_witness :
    ((List.replicate 371 (0:ℚ)).length = number_of_days ∧ weekday (3 + 370) = 5) ∧
    plot_activity_series (denseFrom 3 (List.replicate 371 0)) =
      denseFrom 3 (List.replicate 371 0) :=
  ⟨⟨by rw [List.length_replicate]; rfl, by decide⟩,
   c9_idempotence 3 (List.replicate 371 0) (by rw [List.length_replicate]; rfl) (by decide)⟩

/-- C10: the Sunday assertion of `fill_year` never fires − for every
non-empty daily series, the computed `starting_date` (last date minus 365,
minus weekday index plus one more day) has weekday index 6, that is, it is a
Sunday. -/
theorem c10_sunday_assertion (ts : List (Int × ℚ)) (_h : ts ≠ []) :
    weekday (starting_date ts) = 6 := by
  unfold starting_date one_year_date weekday
  omega

/-- C10 witness: the singleton series at day 0. -/
theorem c10_sunday_assertion_witness :
    (([((0 : Int), (1:ℚ))] : List (Int × ℚ)) ≠ []) ∧
    weekday (starting_date [((0 : Int), (1:ℚ))]) = 6 :=
  ⟨by simp, c10_sunday_assertion [((0 : Int), (1:ℚ))] (by simp)⟩

/-- C1: for every non-empty event set, the dense daily series produced by the
window-filling step of `plot_activity` (`fill_week`, then truncation or
`fill_year`) has length exactly `number_of_days` = 371, its first date is a
Sunday (weekday index 6), and its last date is a Saturday (weekday index 5). -/
theorem c1_dense_window (tz : Int → Int) (events : List (Int × ℚ))
    (h : events ≠ []) :
    (pipelineSeries tz events).length = number_of_days ∧
    weekday (minDate (pipelineSeries tz events)) = 6 ∧
    weekday (maxDate (pipelineSeries tz events)) = 5 := by
  obtain ⟨a, ws, hlen, hsat, heq⟩ := pipelineSeries_denseFrom tz events h
  obtain ⟨w0, ws', rfl⟩ := List.exists_cons_of_ne_nil
    (show ws ≠ [] by intro hnil; rw [hnil] at hlen; simp [number_of_days] at hlen)
  have h370 : ws'.length = 370 := by
    simp only [List.length_cons, number_of_days] at hlen
    omega
  rw [heq, denseFrom_length, minDate_denseFrom, maxDate_denseFrom, h370]
  refine ⟨hlen, ?_, ?_⟩
  · unfold weekday at hsat ⊢
    omega
  · exact_mod_cast hsat

/-- C1 witness: a single event during 2023-06-01 Pacific time. -/
theorem c1_dense_window_witness :
    (([((daysFromCivil 2023 6 1 * 86400 + 72000 : Int), (10:ℚ))] :
        List (Int × ℚ)) ≠ []) ∧
    ((pipelineSeries usPacificOffset
        [((daysFromCivil 2023 6 1 * 86400 + 72000 : Int), (10:ℚ))]).length =
          number_of_days ∧
     weekday (minDate (pipelineSeries usPacificOffset
        [((daysFromCivil 2023 6 1 * 86400 + 72000 : Int), (10:ℚ))])) = 6 ∧
     weekday (maxDate (pipelineSeries usPacificOffset
        [((daysFromCivil 2023 6 1 * 86400 + 72000 : Int), (10:ℚ))])) = 5) :=
  ⟨by simp, c1_dense_window usPacificOffset _ (by simp)⟩

/-- C4: when the series handed to the truncate-or-fill step is dense and its
last date is a Saturday, the result spans exactly `number_of_days` = 371
calendar days, its first date is the Sunday exactly 370 days before the last
date, it begins on a Sunday and ends on a Saturday, and the last date is
unchanged − independently of how much history the series holds. -/
theorem c4_start_anchor (s : Int) (v0 : ℚ) (vs : List ℚ)
    (hsat : weekday (s + vs.length) = 5) :
    (fill_or_truncate (denseFrom s (v0 :: vs))).length = number_of_days ∧
    minDate (fill_or_truncate (denseFrom s (v0 :: vs))) =
      maxDate (fill_or_truncate (denseFrom s (v0 :: vs))) - 370 ∧
    weekday (minDate (fill_or_truncate (denseFrom s (v0 :: vs)))) = 6 ∧
    weekday (maxDate (fill_or_truncate (denseFrom s (v0 :: vs)))) = 5 ∧
    maxDate (fill_or_truncate (denseFrom s (v0 :: vs))) = s + vs.length := by
  obtain ⟨ws, hlen, heq⟩ := fill_or_truncate_denseFrom s v0 vs hsat
  obtain ⟨w0, ws', rfl⟩ := List.exists_cons_of_ne_nil
    (show ws ≠ [] by intro hnil; rw [hnil] at hlen; simp [number_of_days] at hlen)
  have h370 : ws'.length = 370 := by
    simp only [List.length_cons, number_of_days] at hlen
    omega
  rw [heq, denseFrom_length, minDate_denseFrom, maxDate_denseFrom, h370]
  refine ⟨hlen, ?_, ?_, ?_, ?_⟩
  · simp only [List.length_cons, number_of_days]
    push_cast
    omega
  · unfold weekday at hsat ⊢
    simp only [List.length_cons, number_of_days] at hsat ⊢
    push_cast at hsat ⊢
    omega
  · unfold weekday at hsat ⊢
    simp only [List.length_cons, number_of_days] at hsat ⊢
    push_cast at hsat ⊢
    omega
  · simp only [List.length_cons, number_of_days]
    push_cast
    omega

/-- C4 witness: a singleton dense series on 1970-01-03, a Saturday. -/
theorem c4_start_anchor_witness :
    weekday ((2:Int) + (([] : List ℚ)).length) = 5 ∧
    ((fill_or_truncate (denseFrom 2 ((5:ℚ) :: []))).length = number_of_days ∧
     minDate (fill_or_truncate (denseFrom 2 ((5:ℚ) :: []))) =
       maxDate (fill_or_truncate (denseFrom 2 ((5:ℚ) :: []))) - 370 ∧
     weekday (minDate (fill_or_truncate (denseFrom 2 ((5:ℚ) :: [])))) = 6 ∧
     weekday (maxDate (fill_or_truncate (denseFrom 2 ((5:ℚ) :: [])))) = 5 ∧
     maxDate (fill_or_truncate (denseFrom 2 ((5:ℚ) :: []))) =
       2 + (([] : List ℚ)).length) :=
  ⟨by decide, c4_start_anchor 2 5 [] (by decide)⟩

set_option maxRecDepth 1000000 in
/-- C2: zero-fill policy − every entry of the final dense series carries
exactly the summed amount of the events of its local day, so values of dates
present in the bucketized series are copied unchanged and every date of the
window without events gets 0; in particular a single event of amount 10 on
local day 2023-06-01 yields a series whose only nonzero entry is the value 10
at 2023-06-01. -/
theorem c2_zero_fill :
    (∀ (tz : Int → Int) (events : List (Int × ℚ)), events ≠ [] →
      ∀ p ∈ pipelineSeries tz events, p.2 = daySum tz events p.1) ∧
    (pipelineSeries usPacificOffset
        [((daysFromCivil 2023 6 1 * 86400 + 72000 : Int), (10:ℚ))]).filter
        (fun p => decide (p.2 ≠ 0)) = [(daysFromCivil 2023 6 1, (10:ℚ))] ∧
    (daysFromCivil 2023 6 1, (10:ℚ)) ∈ pipelineSeries usPacificOffset
        [((daysFromCivil 2023 6 1 * 86400 + 72000 : Int), (10:ℚ))] := by
  refine ⟨fun tz events h p hp => pipeline_value tz events h hp, ?_, ?_⟩
  · with_unfolding_all decide
  · with_unfolding_all decide

/-- C2 witness: the single 2023-06-01 event of amount 10. -/
theorem c2_zero_fill_witness :
    (([((daysFromCivil 2023 6 1 * 86400 + 72000 : Int), (10:ℚ))] :
        List (Int × ℚ)) ≠ []) ∧
    ∀ p ∈ pipelineSeries usPacificOffset
        [((daysFromCivil 2023 6 1 * 86400 + 72000 : Int), (10:ℚ))],
      p.2 = daySum usPacificOffset
        [((daysFromCivil 2023 6 1 * 86400 + 72000 : Int), (10:ℚ))] p.1 :=
  ⟨by simp, c2_zero_fill.1 usPacificOffset _ (by simp)⟩

set_option maxRecDepth 100000 in
/-- C5: timezone correctness of bucketizing − the UTC instants
2023-06-01T02:00Z and 2023-06-01T09:00Z convert to US Pacific local days
2023-05-31 and 2023-06-01 respectively, two different days, and bucketizing
both events yields two separate buckets whose amounts are not summed
together. -/
theorem c5_timezone_buckets :
    localDay usPacificOffset (daysFromCivil 2023 6 1 * 86400 + 2 * 3600) =
      daysFromCivil 2023 5 31 ∧
    localDay usPacificOffset (daysFromCivil 2023 6 1 * 86400 + 9 * 3600) =
      daysFromCivil 2023 6 1 ∧
    daysFromCivil 2023 5 31 ≠ daysFromCivil 2023 6 1 ∧
    get_daily_gain usPacificOffset
        [((daysFromCivil 2023 6 1 * 86400 + 2 * 3600 : Int), (10:ℚ)),
         ((daysFromCivil 2023 6 1 * 86400 + 9 * 3600 : Int), (20:ℚ))] =
      [(daysFromCivil 2023 5 31, some (10:ℚ)),
       (daysFromCivil 2023 6 1, some (20:ℚ))] := by
  refine ⟨by decide, by decide, by decide, ?_⟩
  with_unfolding_all decide

set_option maxRecDepth 100000 in
/-- C7 counterexample: two events two Pacific days apart (2023-06-01 and
2023-06-03) produce a bucketized series that contains the date 2023-06-02,
a day on which no event occurred − so the series does not contain only dates
with at least one event. -/
theorem c7_counterexample :
    ((daysFromCivil 2023 6 2, (none : Option ℚ)) ∈
      get_daily_gain usPacificOffset
        [((daysFromCivil 2023 6 1 * 86400 + 72000 : Int), (10:ℚ)),
         ((daysFromCivil 2023 6 3 * 86400 + 72000 : Int), (7:ℚ))]) ∧
    (∀ e ∈ ([((daysFromCivil 2023 6 1 * 86400 + 72000 : Int), (10:ℚ)),
             ((daysFromCivil 2023 6 3 * 86400 + 72000 : Int), (7:ℚ))] :
        List (Int × ℚ)),
      localDay usPacificOffset e.1 ≠ daysFromCivil 2023 6 2) := by
  refine ⟨?_, ?_⟩ <;> with_unfolding_all decide

/-- C7 amended: the series produced by bucketizing a non-empty event list
contains exactly the dates between the first and the last local event day
inclusive; a date with at least one event carries the sum of its events'
amounts, and a date with no events is present with a missing value (NaN,
later replaced by 0 in `main`) rather than absent. -/
theorem c7_amended_range (tz : Int → Int) (events : List (Int × ℚ))
    (_h : events ≠ []) (d : Int) (v : Option ℚ) :
    (d, v) ∈ get_daily_gain tz events ↔
      minEventDay tz events ≤ d ∧ d ≤ maxEventDay tz events ∧
        v = (if dayEvents tz events d = [] then none
             else some (daySum tz events d)) := by
  unfold get_daily_gain
  constructor
  · intro hm
    simp only [List.mem_map] at hm
    obtain ⟨d', hd', heq⟩ := hm
    rw [Prod.mk.injEq] at heq
    obtain ⟨rfl, hv⟩ := heq
    rcases mem_date_range.1 hd' with ⟨h1, h2⟩
    exact ⟨h1, h2, hv.symm⟩
  · rintro ⟨h1, h2, rfl⟩
    exact List.mem_map.2 ⟨d, mem_date_range.2 ⟨h1, h2⟩, rfl⟩

set_option maxRecDepth 100000 in
/-- C7 amended witness: the single 2023-06-01 event, evaluated at its own
local day. -/
theorem c7_amended_range_witness :
    (([((daysFromCivil 2023 6 1 * 86400 + 72000 : Int), (10:ℚ))] :
        List (Int × ℚ)) ≠ []) ∧
    ((daysFromCivil 2023 6 1, (some (10:ℚ) : Option ℚ)) ∈
        get_daily_gain usPacificOffset
          [((daysFromCivil 2023 6 1 * 86400 + 72000 : Int), (10:ℚ))] ↔
      minEventDay usPacificOffset
          [((daysFromCivil 2023 6 1 * 86400 + 72000 : Int), (10:ℚ))] ≤
            daysFromCivil 2023 6 1 ∧
        daysFromCivil 2023 6 1 ≤ maxEventDay usPacificOffset
          [((daysFromCivil 2023 6 1 * 86400 + 72000 : Int), (10:ℚ))] ∧
        (some (10:ℚ) : Option ℚ) =
          (if dayEvents usPacificOffset
              [((daysFromCivil 2023 6 1 * 86400 + 72000 : Int), (10:ℚ))]
              (daysFromCivil 2023 6 1) = [] then none
           else some (daySum usPacificOffset
              [((daysFromCivil 2023 6 1 * 86400 + 72000 : Int), (10:ℚ))]
              (daysFromCivil 2023 6 1)))) :=
  ⟨by simp, c7_amended_range usPacificOffset _ (by simp) _ _⟩

/-- C8: month-label collapsing − the label-collapsing loop of
`plot_activity` blanks exactly the labels that repeat the first label of a
run of equal consecutive labels (provided the first label is not already
blank, and `strftime` month abbreviations never are); the week-strided label
list takes the label of each column's first day (the day at index `7 * k`);
and the concrete label list `[Jan, Jan, Feb, Feb, Feb]` collapses to
`[Jan, "", Feb, "", ""]`. -/
theorem c8_month_label_collapse :
    (∀ ms : List String, ms.head? ≠ some "" → collapseMonths ms = collapseRuns ms) ∧
    (∀ (ts : List (Int × ℚ)) (k : Nat),
      (stride7 (month_labels ts))[k]? = (ts[7 * k]?).map (fun p => monthAbbrev p.1)) ∧
    collapseMonths ["Jan", "Jan", "Feb", "Feb", "Feb"] =
      ["Jan", "", "Feb", "", ""] := by
  refine ⟨fun ms h => collapseMonths_eq_runs h, ?_, by decide⟩
  intro ts k
  rw [stride7_getElem]
  unfold month_labels
  rw [List.getElem?_map]

/-- C8 witness: a concrete label list with a non-blank first label. -/
theorem c8_month_label_collapse_witness :
    ((["Mar", "Mar", "Apr"] : List String).head? ≠ some "") ∧
    collapseMonths ["Mar", "Mar", "Apr"] = collapseRuns ["Mar", "Mar", "Apr"] :=
  ⟨by decide, c8_month_label_collapse.1 ["Mar", "Mar", "Apr"] (by decide)⟩

/-- Sanity check of the calendar embedding: the epoch day, its weekday, a
2023 date round trip, its month label, and the 2023 US DST transition days. -/
theorem calendar_sanity :
    daysFromCivil 1970 1 1 = 0 ∧ weekday 0 = 3 ∧
    daysFromCivil 2023 6 1 = 19509 ∧ civilOfDays 19509 = (2023, 6, 1) ∧
    monthAbbrev 19509 = "Jun" ∧
    secondSundayOfMarch 2023 = daysFromCivil 2023 3 12 ∧
    firstSundayOfNovember 2023 = daysFromCivil 2023 11 5 := by decide
